import Mathlib

/-
Verification of the try_iter library (src/lib.rs).

The library works over fallible sequences: pull-based iterators whose
elements are `Result<T, E>`.  We embed `Result<T, E>` as `Except ε α`
(`Ok` = `Except.ok`, `Err` = `Except.error`).

Two granularities of embedding are used, both transcribed from the same
source functions:

* A per-pull (machine) embedding: a wrapped `TryIterator` is an abstract
  stepper `step : σ → Option (Except ε α) × σ` (the Rust `try_next`, with
  the mutable receiver made an explicit state `σ`).  Each adapter's
  `Iterator::next` becomes a function on the adapter's state.  An `FnMut`
  closure is embedded as `τ → α → β × τ`, its captured mutable state made
  an explicit `τ`; a closure is invoked exactly where its state can change.

* A whole-output (list) embedding: the blanket impl
  `impl<I, T, E> TryIterator for I where I: Iterator<Item = Result<T, E>>`
  (lib.rs lines 72-82) makes any finite sequence of Results, held as a
  `List (Except ε α)`, a wrapped iterator whose `try_next` pops the head.
  Running an adapter's `next` to exhaustion over such a list yields a list;
  the recursive equations below are those runs, one constructor case per
  branch of the corresponding Rust `next`.
-/

/-- `try_next` of the blanket `TryIterator` instance for an iterator held as a
finite list (lib.rs lines 72-82): pop the head, or report exhaustion. -/
def listStep {γ : Type} : List γ → Option γ × List γ
  | [] => (none, [])
  | x :: xs => (some x, xs)

/-- Observer: repeatedly pull a stepper, collecting the yielded items until
the first `none` (or until the fuel runs out).  This is what Rust's
`collect` does to a plain iterator. -/
def collectSteps {γ β : Type} (next : γ → Option β × γ) : Nat → γ → List β
  | 0, _ => []
  | n + 1, s =>
    match next s with
    | (none, _) => []
    | (some x, s') => x :: collectSteps next n s'

/-- Observer: the state after `n` pulls of a stepper (each pull's yielded
item is discarded). -/
def iterPulls {γ β : Type} (next : γ → Option β × γ) : Nat → γ → γ
  | 0, s => s
  | n + 1, s => iterPulls next n (next s).2

/-- Observer used to state claims: the success values of a fallible
sequence, in order. -/
def okValues {α ε : Type} (l : List (Except ε α)) : List α :=
  l.filterMap fun x =>
    match x with
    | Except.ok v => some v
    | Except.error _ => none

/-- Observer used to state claims: the error values of a fallible sequence,
in order. -/
def errValues {α ε : Type} (l : List (Except ε α)) : List ε :=
  l.filterMap fun x =>
    match x with
    | Except.ok _ => none
    | Except.error e => some e

/-- `Iterator::next` for `TryMap` (lib.rs lines 89-98):
`self.iter.try_next().map(|r| r.map(&mut self.f))`, run to exhaustion over a
finite wrapped sequence.  `Result::map` applies `f` in the `Ok` branch and
forwards the `Err` branch unchanged. -/
def tryMap {α β ε : Type} (f : α → β) : List (Except ε α) → List (Except ε β)
  | [] => []
  | Except.ok x :: rest => Except.ok (f x) :: tryMap f rest
  | Except.error e :: rest => Except.error e :: tryMap f rest

/-- One pull of `TryMap` (lib.rs lines 95-97) against an abstract wrapped
stepper, the `FnMut` closure `f` carried as explicit closure state `τ`:
`Result::map` invokes `f` on `Ok(x)` and leaves the closure untouched on
`Err(e)`. -/
def tryMapNextF {σ τ α β ε : Type} (step : σ → Option (Except ε α) × σ)
    (f : τ → α → β × τ) : σ × τ → Option (Except ε β) × (σ × τ)
  | (s, t) =>
    match step s with
    | (none, s') => (none, (s', t))
    | (some (Except.ok x), s') =>
      match f t x with
      | (y, t') => (some (Except.ok y), (s', t'))
    | (some (Except.error e), s') => (some (Except.error e), (s', t))

/-- One pull of `MapAndThen` (lib.rs lines 105-117) against an abstract
wrapped stepper:
`self.iter.try_next().map(|r| r.map_err(From::from).and_then(&mut self.f))`.
`conv` is the `From<I::Err> for E` conversion; the `FnMut` closure `f`
returns directly into the unified error type `δ` and is carried as explicit
closure state `τ`. -/
def mapAndThenNextF {σ τ α β ε δ : Type} (step : σ → Option (Except ε α) × σ)
    (conv : ε → δ) (f : τ → α → Except δ β × τ) :
    σ × τ → Option (Except δ β) × (σ × τ)
  | (s, t) =>
    match step s with
    | (none, s') => (none, (s', t))
    | (some (Except.ok x), s') =>
      match f t x with
      | (r, t') => (some r, (s', t'))
    | (some (Except.error e), s') => (some (Except.error (conv e)), (s', t))

/-- Modelled from the spec: the per-pull behavior of `map_and_then` as
claim C7 words it, in which the error conversion is applied also to the
error returned by `f` (spec section 4.3).  The source applies no conversion
to `f`'s error, so this definition follows the claim's words, not the code;
it is stated at the one typing where the claim's words are well-formed,
a single error type.  Used only to compare against the code's behavior. -/
def mapAndThenNextSpec {σ α β ε : Type} (step : σ → Option (Except ε α) × σ)
    (conv : ε → ε) (f : α → Except ε β) (s : σ) : Option (Except ε β) × σ :=
  match step s with
  | (none, s') => (none, s')
  | (some (Except.error e), s') => (some (Except.error (conv e)), s')
  | (some (Except.ok v), s') =>
    match f v with
    | Except.error e2 => (some (Except.error (conv e2)), s')
    | Except.ok v2 => (some (Except.ok v2), s')

/-- `Iterator::next` for `TryFilter` (lib.rs lines 128-149), run to
exhaustion over a finite wrapped sequence: the inner `while let` loop skips
an `Ok(x)` failing the predicate, forwards an `Ok(x)` passing it, and
forwards an `Err(e)` immediately. -/
def tryFilter {α ε : Type} (p : α → Bool) :
    List (Except ε α) → List (Except ε α)
  | [] => []
  | Except.ok x :: rest =>
    if p x then Except.ok x :: tryFilter p rest else tryFilter p rest
  | Except.error e :: rest => Except.error e :: tryFilter p rest

/-- One pull of `TryFilter` (lib.rs lines 134-148) over a list-held wrapped
sequence, the `FnMut` predicate carried as explicit closure state `τ`: loop
pulling the wrapped sequence; on `Ok(x)` invoke the predicate and yield
`Ok(x)` if it holds, else continue; on `Err(e)` yield `Err(e)` at once,
predicate not invoked. -/
def tryFilterNextF {τ α ε : Type} (p : τ → α → Bool × τ) :
    List (Except ε α) × τ → Option (Except ε α) × (List (Except ε α) × τ)
  | ([], t) => (none, ([], t))
  | (Except.error e :: rest, t) => (some (Except.error e), (rest, t))
  | (Except.ok x :: rest, t) =>
    match p t x with
    | (true, t') => (some (Except.ok x), (rest, t'))
    | (false, t') => tryFilterNextF p (rest, t')

/-- The state of the `TakeOk` adapter (lib.rs lines 151-154): the wrapped
iterator and the halting flag, initially `false` (lib.rs lines 38-43). -/
structure TakeOk (σ : Type) : Type where
  iter : σ
  flag : Bool

/-- `Iterator::next` for `TakeOk` (lib.rs lines 156-171) against an abstract
wrapped stepper: if the flag is set, yield `None` without pulling; otherwise
pull the wrapped sequence (`self.iter.try_next()?` updates it even when it
is exhausted), unwrap an `Ok`, and on an `Err` set the flag and yield
`None`. -/
def takeOkNext {σ α ε : Type} (step : σ → Option (Except ε α) × σ)
    (st : TakeOk σ) : Option α × TakeOk σ :=
  if st.flag then (none, st)
  else
    match step st.iter with
    | (none, s') => (none, ⟨s', false⟩)
    | (some (Except.ok x), s') => (some x, ⟨s', false⟩)
    | (some (Except.error _), s') => (none, ⟨s', true⟩)

/-- `Iterator::next` for `TakeOk` run to exhaustion over a finite wrapped
sequence starting with the flag clear: unwrapped successes until the first
error, at which point the flag halts the iterator for good. -/
def takeOk {α ε : Type} : List (Except ε α) → List α
  | [] => []
  | Except.ok x :: rest => x :: takeOk rest
  | Except.error _ :: _ => []

/-- `Iterator::next` for `FilterOk` (lib.rs lines 175-187) run to exhaustion
over a finite wrapped sequence: the inner `while let` loop skips every
error and yields each unwrapped success. -/
def filterOk {α ε : Type} : List (Except ε α) → List α
  | [] => []
  | Except.ok x :: rest => x :: filterOk rest
  | Except.error _ :: rest => filterOk rest

/-- The drain loop shared verbatim by `try_collect` (lib.rs lines 59-69) and
`try_buffer` (lib.rs lines 50-57):
`while let Some(x) = self.try_next() { v.push(x?); }`.
`v` is the accumulator vector; `x?` returns the first error at once, so the
result pairs the loop's outcome with the part of the wrapped sequence the
loop never pulled. -/
def tryCollectAux {α ε : Type} :
    List (Except ε α) → List α → Except ε (List α) × List (Except ε α)
  | [], v => (Except.ok v, [])
  | Except.ok x :: rest, v => tryCollectAux rest (v ++ [x])
  | Except.error e :: rest, _ => (Except.error e, rest)

/-- `TryIterator::try_collect` (lib.rs lines 59-69): drain, then on success
build the caller-chosen container via `FromIterator::from_iter`, embedded as
an abstract `fromIter : List α → β`. -/
def tryCollect {α β ε : Type} (fromIter : List α → β)
    (l : List (Except ε α)) : Except ε β :=
  match tryCollectAux l [] with
  | (Except.ok v, _) => Except.ok (fromIter v)
  | (Except.error e, _) => Except.error e

/-- `TryIterator::try_buffer` (lib.rs lines 50-57): drain, then on success
wrap the accumulated vector in an `IterBuffer` (`v.into_iter()`); the
buffer's remaining-elements state is the list itself. -/
def tryBuffer {α ε : Type} (l : List (Except ε α)) : Except ε (List α) :=
  match tryCollectAux l [] with
  | (Except.ok v, _) => Except.ok v
  | (Except.error e, _) => Except.error e

/-- `Iterator::next` for `IterBuffer` (lib.rs lines 191-202), delegating to
`std::vec::IntoIter::next`: pop the front of the remaining elements. -/
def IterBuffer.next {α : Type} : List α → Option α × List α
  | [] => (none, [])
  | x :: xs => (some x, xs)

/-- `ExactSizeIterator::len` for `IterBuffer` (lib.rs lines 203-208),
delegating to `std::vec::IntoIter::len`: the number of remaining
elements. -/
def IterBuffer.len {α : Type} (b : List α) : Nat := b.length

/-- `DoubleEndedIterator::next_back` for `IterBuffer` (lib.rs lines
209-214), delegating to `std::vec::IntoIter::next_back`: pop the back of
the remaining elements. -/
def IterBuffer.nextBack {α : Type} (b : List α) : Option α × List α :=
  match b.getLast? with
  | none => (none, [])
  | some x => (some x, b.dropLast)

/-! ### Basic lemmas connecting the runs to library list functions -/

theorem tryMap_eq_map {α β ε : Type} (f : α → β) (l : List (Except ε α)) :
    tryMap f l = l.map (Except.map f) := by
  induction l with
  | nil => rfl
  | cons x rest ih => cases x <;> simp [tryMap, Except.map, ih]

theorem filterOk_eq_okValues {α ε : Type} (l : List (Except ε α)) :
    filterOk l = okValues l := by
  induction l with
  | nil => rfl
  | cons x rest ih =>
    cases x <;> simp [filterOk, okValues, List.filterMap_cons] at ih ⊢ <;> simp [ih]

theorem okValues_append {α ε : Type} (a b : List (Except ε α)) :
    okValues (a ++ b) = okValues a ++ okValues b := by
  simp [okValues, List.filterMap_append]

theorem okValues_error_cons {α ε : Type} (e : ε) (l : List (Except ε α)) :
    okValues (Except.error e :: l) = okValues l := by
  simp [okValues, List.filterMap_cons]

theorem okValues_ok_cons {α ε : Type} (a : α) (l : List (Except ε α)) :
    okValues (Except.ok a :: l) = a :: okValues l := by
  simp [okValues, List.filterMap_cons]

theorem tryCollectAux_all_ok {α ε : Type} (l : List (Except ε α)) (v : List α)
    (h : ∀ x ∈ l, x.isOk = true) :
    tryCollectAux l v = (Except.ok (v ++ okValues l), []) := by
  induction l generalizing v with
  | nil => simp [tryCollectAux, okValues]
  | cons x rest ih =>
    cases x with
    | ok a =>
      rw [tryCollectAux, ih (v ++ [a]) (fun y hy => h y (List.mem_cons_of_mem _ hy)),
        okValues_ok_cons]
      simp
    | error e =>
      exact absurd (h _ (List.mem_cons_self _ _)) (by simp [Except.isOk, Except.toBool])

theorem tryCollectAux_first_error {α ε : Type} (pre : List (Except ε α)) (e : ε)
    (rest : List (Except ε α)) (v : List α) (h : ∀ x ∈ pre, x.isOk = true) :
    tryCollectAux (pre ++ Except.error e :: rest) v = (Except.error e, rest) := by
  induction pre generalizing v with
  | nil => simp [tryCollectAux]
  | cons x pre ih =>
    cases x with
    | ok a =>
      rw [List.cons_append, tryCollectAux]
      exact ih (v ++ [a]) (fun y hy => h y (List.mem_cons_of_mem _ hy))
    | error e' =>
      exact absurd (h _ (List.mem_cons_self _ _)) (by simp [Except.isOk, Except.toBool])

theorem tryCollectAux_ok_inv {α ε : Type} (l : List (Except ε α)) (v b : List α)
    (r : List (Except ε α)) (h : tryCollectAux l v = (Except.ok b, r)) :
    (∀ x ∈ l, x.isOk = true) ∧ b = v ++ okValues l := by
  induction l generalizing v with
  | nil =>
    rw [tryCollectAux] at h
    simp at h
    simp [okValues, h]
  | cons x rest ih =>
    cases x with
    | ok a =>
      rw [tryCollectAux] at h
      obtain ⟨h1, h2⟩ := ih (v ++ [a]) h
      refine ⟨?_, ?_⟩
      · intro y hy
        rcases List.mem_cons.mp hy with hy | hy
        · simp [hy, Except.isOk, Except.toBool]
        · exact h1 y hy
      · rw [h2, okValues_ok_cons]
        simp
    | error e =>
      rw [tryCollectAux] at h
      simp at h

/-! ### Claim theorems -/

/-- Claim C1: for every fallible sequence S and non-failing f, try_map f
preserves the length of S, keeps every failure of S with the same error at the
same position, turns the success v at position i into f v at position i, and
never invokes f on a failure element: against any wrapped stepper, pulling a
failure leaves the closure state of any stateful f untouched and yields an
output independent of f. -/
theorem try_map_spec (α β ε σ τ : Type) (f : α → β) (S : List (Except ε α)) :
    (tryMap f S).length = S.length
    ∧ (∀ (i : Nat) (e : ε), S[i]? = some (Except.error e) →
        (tryMap f S)[i]? = some (Except.error e))
    ∧ (∀ (i : Nat) (v : α), S[i]? = some (Except.ok v) →
        (tryMap f S)[i]? = some (Except.ok (f v)))
    ∧ (∀ (step : σ → Option (Except ε α) × σ) (g : τ → α → β × τ)
        (s s' : σ) (t : τ) (e : ε),
        step s = (some (Except.error e), s') →
        tryMapNextF step g (s, t) = (some (Except.error e), (s', t))) := by
  refine ⟨?_, ?_, ?_, ?_⟩
  · rw [tryMap_eq_map]; simp
  · intro i e h
    rw [tryMap_eq_map, List.getElem?_map, h]
    simp [Except.map]
  · intro i v h
    rw [tryMap_eq_map, List.getElem?_map, h]
    simp [Except.map]
  · intro step g s s' t e h
    simp [tryMapNextF, h]

/-- Witness for C1 at a concrete sequence: the failure at position 1 passes
through try_map untouched. -/
theorem try_map_spec_witness :
    (tryMap (fun n : Nat => n + 1) [Except.ok 1, Except.error 7, Except.ok 2])[1]?
      = some (Except.error (7 : Nat))
    ∧ tryMap (fun n : Nat => n + 1) [Except.ok 1, Except.error 7, Except.ok 2]
      = [Except.ok 2, Except.error 7, Except.ok 3] :=
  ⟨(try_map_spec Nat Nat Nat Unit Unit (fun n => n + 1)
      [Except.ok 1, Except.error 7, Except.ok 2]).2.1 1 7 rfl, rfl⟩

/-- Claim C3: take_ok produces exactly the success values occurring before the
first failure of S, in order; whenever a failure occurs, everything from that
failure on is discarded, whatever it is, and so is the failure's error. -/
theorem take_ok_spec {α ε : Type} (S : List (Except ε α)) :
    takeOk S = okValues (S.takeWhile Except.isOk)
    ∧ ∀ (pre : List (Except ε α)) (e : ε) (post : List (Except ε α)),
        (∀ x ∈ pre, x.isOk = true) →
        takeOk (pre ++ Except.error e :: post) = okValues pre := by
  constructor
  · induction S with
    | nil => rfl
    | cons x rest ih =>
      cases x with
      | ok a =>
        rw [takeOk, List.takeWhile_cons]
        simp [Except.isOk, Except.toBool, okValues_ok_cons, ih]
      | error e =>
        rw [takeOk, List.takeWhile_cons]
        simp [Except.isOk, Except.toBool, okValues]
  · intro pre e post h
    induction pre with
    | nil => simp [takeOk, okValues]
    | cons x pre ih =>
      cases x with
      | ok a =>
        rw [List.cons_append, takeOk, okValues_ok_cons,
          ih (fun y hy => h y (List.mem_cons_of_mem _ hy))]
      | error e' =>
        exact absurd (h _ (List.mem_cons_self _ _))
          (by simp [Except.isOk, Except.toBool])

/-- Witness for C3 at a concrete sequence: the success after the failure is
dropped and the error 7 is discarded. -/
theorem take_ok_spec_witness :
    takeOk ([Except.ok 1] ++ Except.error 7 :: [Except.ok (2 : Nat)])
      = okValues ([Except.ok 1] : List (Except Nat Nat))
    ∧ okValues ([Except.ok 1] : List (Except Nat Nat)) = [1] :=
  ⟨(take_ok_spec ([Except.ok 1] ++ Except.error 7 :: [Except.ok (2 : Nat)])).2
      [Except.ok 1] 7 [Except.ok 2] (by decide), rfl⟩

/-- Claim C5: filter_ok produces exactly the successes of S, in order, however
many failures are interspersed; it never halts at a failure, so the successes
after a failure are still produced. -/
theorem filter_ok_spec {α ε : Type} (S : List (Except ε α)) :
    filterOk S = okValues S
    ∧ ∀ (pre : List (Except ε α)) (e : ε) (post : List (Except ε α)),
        filterOk (pre ++ Except.error e :: post) = okValues pre ++ okValues post := by
  refine ⟨filterOk_eq_okValues S, ?_⟩
  intro pre e post
  rw [filterOk_eq_okValues, okValues_append, okValues_error_cons]

/-- Claim C6: try_filter keeps every failure of S unchanged and in order (it is
the filter keeping all failures and exactly the successes passing p); the
errors of the output are exactly the errors of S; the successes of the output
are exactly the successes of S passing p; and a failure at the front of the
wrapped sequence is forwarded at once, the predicate not invoked (its closure
state untouched, whatever the stateful predicate). -/
theorem try_filter_spec {α ε τ : Type} (p : α → Bool) (S : List (Except ε α)) :
    tryFilter p S = S.filter (fun x =>
      match x with
      | Except.ok v => p v
      | Except.error _ => true)
    ∧ errValues (tryFilter p S) = errValues S
    ∧ okValues (tryFilter p S) = (okValues S).filter p
    ∧ ∀ (q : τ → α → Bool × τ) (e : ε) (rest : List (Except ε α)) (t : τ),
        tryFilterNextF q (Except.error e :: rest, t)
          = (some (Except.error e), (rest, t)) := by
  refine ⟨?_, ?_, ?_, ?_⟩
  · induction S with
    | nil => rfl
    | cons x rest ih =>
      cases x with
      | ok a =>
        rw [tryFilter, List.filter_cons]
        by_cases hp : p a <;> simp [hp, ih]
      | error e =>
        rw [tryFilter, List.filter_cons]
        simp [ih]
  · induction S with
    | nil => rfl
    | cons x rest ih =>
      cases x with
      | ok a =>
        rw [tryFilter]
        by_cases hp : p a <;>
          simp [hp, errValues, List.filterMap_cons] at ih ⊢ <;> exact ih
      | error e =>
        rw [tryFilter]
        simp [errValues, List.filterMap_cons] at ih ⊢
        exact ih
  · induction S with
    | nil => rfl
    | cons x rest ih =>
      cases x with
      | ok a =>
        rw [tryFilter, okValues_ok_cons]
        by_cases hp : p a <;> simp [hp, okValues_ok_cons, List.filter_cons, ih]
      | error e =>
        rw [tryFilter, okValues_error_cons, okValues_error_cons]
        exact ih
  · intro q e rest t
    simp [tryFilterNextF]

/-- Claim C2: try_collect returns the container of all success values of S, in
order, exactly when S has no failure; when S has a first failure e (an all-ok
run then Err(e)), it returns that failure, leaves everything after the failure
unpulled, and exposes no container. -/
theorem try_collect_spec {α β ε : Type} (fromIter : List α → β)
    (S : List (Except ε α)) :
    ((∀ x ∈ S, x.isOk = true) →
      tryCollect fromIter S = Except.ok (fromIter (okValues S)))
    ∧ (∀ (pre : List (Except ε α)) (e : ε) (post : List (Except ε α)),
        (∀ x ∈ pre, x.isOk = true) → S = pre ++ Except.error e :: post →
        tryCollect fromIter S = Except.error e ∧ (tryCollectAux S []).2 = post)
    ∧ (∀ b : β, tryCollect fromIter S = Except.ok b →
        (∀ x ∈ S, x.isOk = true) ∧ b = fromIter (okValues S)) := by
  refine ⟨?_, ?_, ?_⟩
  · intro h
    rw [tryCollect, tryCollectAux_all_ok S [] h]
    simp
  · intro pre e post hpre hS
    rw [hS, tryCollect, tryCollectAux_first_error pre e post [] hpre]
    exact ⟨rfl, rfl⟩
  · intro b hb
    rw [tryCollect] at hb
    rcases h' : tryCollectAux S [] with ⟨res, rem⟩
    cases res with
    | ok v =>
      rw [h'] at hb
      simp at hb
      obtain ⟨hall, hv⟩ := tryCollectAux_ok_inv S [] v rem h'
      simp at hv
      exact ⟨hall, by rw [← hb, hv]⟩
    | error e =>
      rw [h'] at hb
      simp at hb

/-- Witness for C2 at a concrete sequence with a failure at position 1: the
first error is returned and the element after it is never pulled. -/
theorem try_collect_spec_witness :
    tryCollect (fun l => l) ([Except.ok 1] ++ Except.error 7 :: [Except.ok (2 : Nat)])
      = Except.error 7
    ∧ (tryCollectAux ([Except.ok 1] ++ Except.error 7 :: [Except.ok (2 : Nat)]) []).2
      = [Except.ok 2] :=
  (try_collect_spec (fun l => l)
      ([Except.ok 1] ++ Except.error 7 :: [Except.ok (2 : Nat)])).2.1
    [Except.ok 1] 7 [Except.ok 2] (by decide) rfl

/-- Claim C4: pulling take_ok when the wrapped sequence yields a failure sets
the flag; once the flag is set, a pull of take_ok yields none and leaves the
whole state, wrapped sequence included, untouched, for every wrapped stepper,
and so does every later pull — the wrapped sequence is never pulled again.
The drain loop shared by try_collect and try_buffer likewise stops at the
first failure of the wrapped sequence, leaving everything after that failure
unpulled. -/
theorem halt_no_further_pull_spec (σ α ε : Type) :
    (∀ (step : σ → Option (Except ε α) × σ) (s s' : σ) (e : ε),
      step s = (some (Except.error e), s') →
      takeOkNext step ⟨s, false⟩ = (none, ⟨s', true⟩))
    ∧ (∀ (step : σ → Option (Except ε α) × σ) (s : σ),
      (takeOkNext step ⟨s, true⟩).1 = none
      ∧ ∀ n : Nat, iterPulls (takeOkNext step) n ⟨s, true⟩ = ⟨s, true⟩)
    ∧ (∀ (pre : List (Except ε α)) (e : ε) (rest : List (Except ε α))
        (v : List α),
      (∀ x ∈ pre, x.isOk = true) →
      (tryCollectAux (pre ++ Except.error e :: rest) v).2 = rest) := by
  refine ⟨?_, ?_, ?_⟩
  · intro step s s' e h
    simp [takeOkNext, h]
  · intro step s
    refine ⟨by simp [takeOkNext], ?_⟩
    intro n
    induction n with
    | zero => rfl
    | succ n ih => rw [iterPulls]; simpa [takeOkNext] using ih
  · intro pre e rest v h
    rw [tryCollectAux_first_error pre e rest v h]

/-- Witness for C4: a concrete failure pull sets the flag, five pulls with the
flag set leave the state untouched, and a concrete drain stops at the first
failure, leaving the element after it unpulled. -/
theorem halt_no_further_pull_spec_witness :
    takeOkNext listStep ⟨[(Except.error 7 : Except Nat Nat)], false⟩
      = (none, ⟨[], true⟩)
    ∧ iterPulls (takeOkNext (listStep (γ := Except Nat Nat))) 5
        ⟨[Except.ok 3], true⟩ = ⟨[Except.ok 3], true⟩
    ∧ (tryCollectAux ([Except.ok 3] ++ Except.error 7 :: [Except.ok (4 : Nat)])
        []).2 = [Except.ok 4] := by
  have h := halt_no_further_pull_spec (List (Except Nat Nat)) Nat Nat
  exact ⟨h.1 listStep [Except.error 7] [] 7 rfl,
    (h.2.1 listStep [Except.ok 3]).2 5,
    h.2.2 [Except.ok 3] 7 [Except.ok 4] [] (by decide)⟩

/-- Claim C10: when the wrapped sequence is merely exhausted (yields none with
no failure), take_ok yields none but leaves the flag clear, so the next pull
of take_ok pulls the wrapped sequence again: a success then yielded by the
wrapped sequence is passed on, a failure then yielded halts it — the adapter
is not fused at end-of-sequence. -/
theorem take_ok_not_fused_spec {σ α ε : Type}
    (step : σ → Option (Except ε α) × σ) (s s' : σ)
    (h : step s = (none, s')) :
    takeOkNext step ⟨s, false⟩ = (none, ⟨s', false⟩)
    ∧ (∀ (x : α) (s2 : σ), step s' = (some (Except.ok x), s2) →
        takeOkNext step ⟨s', false⟩ = (some x, ⟨s2, false⟩))
    ∧ (∀ (e : ε) (s2 : σ), step s' = (some (Except.error e), s2) →
        takeOkNext step ⟨s', false⟩ = (none, ⟨s2, true⟩)) := by
  refine ⟨by simp [takeOkNext, h], ?_, ?_⟩
  · intro x s2 h2
    simp [takeOkNext, h2]
  · intro e s2 h2
    simp [takeOkNext, h2]

/-- Witness for C10: a stepper over states 0, 1, 2 that is exhausted at state
0 but yields a success at state 1; take_ok passes the post-exhaustion success
on, showing the wrapped sequence was pulled again. -/
theorem take_ok_not_fused_spec_witness :
    takeOkNext (fun n : Nat =>
        if n = 0 then ((none : Option (Except Nat Nat)), 1)
        else if n = 1 then (some (Except.ok 5), 2) else (none, n))
      ⟨0, false⟩ = (none, ⟨1, false⟩)
    ∧ takeOkNext (fun n : Nat =>
        if n = 0 then ((none : Option (Except Nat Nat)), 1)
        else if n = 1 then (some (Except.ok 5), 2) else (none, n))
      ⟨1, false⟩ = (some 5, ⟨2, false⟩) := by
  have h := take_ok_not_fused_spec (fun n : Nat =>
      if n = 0 then ((none : Option (Except Nat Nat)), 1)
      else if n = 1 then (some (Except.ok 5), 2) else (none, n)) 0 1 rfl
  exact ⟨h.1, h.2.1 5 2 rfl⟩

/-- Counterexample to claim C7 as stated: with the conversion `Nat.succ` and an
f that returns `Failure 5` on the pulled success, the code yields `Failure 5`
unchanged, while the claim's reading (`mapAndThenNextSpec`, which applies the
conversion to f's error) yields `Failure 6`; the two disagree. -/
theorem map_and_then_claim_counterexample :
    (mapAndThenNextF listStep Nat.succ
        (fun (t : Unit) (_ : Nat) => ((Except.error 5 : Except Nat Nat), t))
        ([Except.ok 0], ())).1 = some (Except.error 5)
    ∧ (mapAndThenNextSpec listStep Nat.succ
        (fun (_ : Nat) => (Except.error 5 : Except Nat Nat))
        [Except.ok 0]).1 = some (Except.error 6)
    ∧ some (Except.error 5 : Except Nat Nat) ≠ some (Except.error 6) :=
  ⟨rfl, rfl, fun h => by simp at h⟩

/-- Claim C7 as amended: on each pull, map_and_then yields none when the
wrapped sequence is exhausted; yields `Failure (conv e)` on a wrapped
`Failure e` without invoking f (f's closure state untouched); and on a wrapped
`Success v` invokes f, yielding `Failure e2` unchanged when f returns
`Failure e2` — f's error is already of the unified error type, no conversion
is applied to it — and `Success v2` when f returns `Success v2`. -/
theorem map_and_then_pull_spec {σ τ α β ε δ : Type}
    (step : σ → Option (Except ε α) × σ) (conv : ε → δ)
    (f : τ → α → Except δ β × τ) (s : σ) (t : τ) :
    (∀ s' : σ, step s = (none, s') →
      mapAndThenNextF step conv f (s, t) = (none, (s', t)))
    ∧ (∀ (e : ε) (s' : σ), step s = (some (Except.error e), s') →
      mapAndThenNextF step conv f (s, t) = (some (Except.error (conv e)), (s', t)))
    ∧ (∀ (v : α) (s' : σ) (e2 : δ) (t' : τ),
      step s = (some (Except.ok v), s') → f t v = (Except.error e2, t') →
      mapAndThenNextF step conv f (s, t) = (some (Except.error e2), (s', t')))
    ∧ (∀ (v : α) (s' : σ) (v2 : β) (t' : τ),
      step s = (some (Except.ok v), s') → f t v = (Except.ok v2, t') →
      mapAndThenNextF step conv f (s, t) = (some (Except.ok v2), (s', t'))) := by
  refine ⟨?_, ?_, ?_, ?_⟩
  · intro s' h
    simp [mapAndThenNextF, h]
  · intro e s' h
    simp [mapAndThenNextF, h]
  · intro v s' e2 t' h hf
    simp [mapAndThenNextF, h, hf]
  · intro v s' v2 t' h hf
    simp [mapAndThenNextF, h, hf]

/-- Witness for the amended C7 at concrete pulls: a wrapped failure is
converted by `Nat.succ` with f not invoked, and a wrapped success feeds f,
whose failure passes through unconverted. -/
theorem map_and_then_pull_spec_witness :
    mapAndThenNextF listStep Nat.succ
        (fun (t : Unit) (n : Nat) => ((Except.ok (n + 10) : Except Nat Nat), t))
        ([Except.error 3], ())
      = (some (Except.error 4), ([], ()))
    ∧ mapAndThenNextF listStep Nat.succ
        (fun (t : Unit) (_ : Nat) => ((Except.error 5 : Except Nat Nat), t))
        ([Except.ok 0], ())
      = (some (Except.error 5), ([], ())) :=
  ⟨(map_and_then_pull_spec listStep Nat.succ
      (fun (t : Unit) (n : Nat) => ((Except.ok (n + 10) : Except Nat Nat), t))
      [Except.error 3] ()).2.1 3 [] rfl,
    (map_and_then_pull_spec listStep Nat.succ
      (fun (t : Unit) (_ : Nat) => ((Except.error 5 : Except Nat Nat), t))
      [Except.ok 0] ()).2.2.1 0 [] 5 () rfl rfl⟩

theorem collectSteps_iterBuffer {α : Type} (fuel : Nat) (b : List α)
    (h : b.length ≤ fuel) : collectSteps IterBuffer.next fuel b = b := by
  induction fuel generalizing b with
  | zero =>
    rw [List.length_eq_zero.mp (Nat.le_zero.mp h)]
    rfl
  | succ n ih =>
    cases b with
    | nil => rfl
    | cons x xs =>
      rw [collectSteps]
      simp only [IterBuffer.next]
      rw [ih xs (by simpa using h)]

/-- Claim C8: over a failure-free sequence S, try_buffer succeeds and
collecting the returned buffer into a container (pulling it to exhaustion and
building the container from what it yielded) equals try_collect applied
directly to S with the same container builder. -/
theorem try_buffer_round_trip {α β ε : Type} (fromIter : List α → β)
    (S : List (Except ε α)) (fuel : Nat)
    (hok : ∀ x ∈ S, x.isOk = true) (hfuel : S.length ≤ fuel) :
    (tryBuffer S).map (fun buf => fromIter (collectSteps IterBuffer.next fuel buf))
      = tryCollect fromIter S := by
  have ha := tryCollectAux_all_ok S [] hok
  have hlen : (okValues S).length ≤ S.length := List.length_filterMap_le _ _
  rw [tryBuffer, tryCollect, ha]
  simp [Except.map, collectSteps_iterBuffer fuel _ (le_trans hlen hfuel)]

/-- Witness for C8 at a concrete failure-free sequence. -/
theorem try_buffer_round_trip_witness :
    (tryBuffer ([Except.ok 1, Except.ok 2, Except.ok 3] : List (Except Nat Nat))).map
        (fun buf => collectSteps IterBuffer.next 3 buf)
      = tryCollect (fun l => l)
          ([Except.ok 1, Except.ok 2, Except.ok 3] : List (Except Nat Nat)) :=
  try_buffer_round_trip (fun l => l) _ 3 (by decide) (by decide)

/-- Claim C9: a buffer returned by a successful try_buffer is finite and
non-fallible — its reported length is the number of successes of S and its
elements are plain values; the reported length is exactly the number of
elements a full drain still yields, and drops by one at each pull that yields
an element; the buffer iterates in reverse from the tail; and it is fused:
a pull that yields none leaves a state from which every further pull yields
none and changes nothing. -/
theorem try_buffer_result_spec {α ε : Type} (S : List (Except ε α))
    (buf : List α) (h : tryBuffer S = Except.ok buf) :
    IterBuffer.len buf = (okValues S).length
    ∧ IterBuffer.len buf
      = (collectSteps IterBuffer.next (IterBuffer.len buf) buf).length
    ∧ (∀ (b b' : List α) (x : α), IterBuffer.next b = (some x, b') →
        IterBuffer.len b' + 1 = IterBuffer.len b)
    ∧ (∀ (l : List α) (x : α), IterBuffer.nextBack (l ++ [x]) = (some x, l))
    ∧ (∀ (b b' : List α), IterBuffer.next b = (none, b') →
        ∀ n : Nat, iterPulls IterBuffer.next n b' = b'
          ∧ (IterBuffer.next b').1 = none) := by
  refine ⟨?_, ?_, ?_, ?_, ?_⟩
  · rw [tryBuffer] at h
    rcases h' : tryCollectAux S [] with ⟨res, rem⟩
    cases res with
    | ok v =>
      rw [h'] at h
      simp at h
      obtain ⟨-, hv⟩ := tryCollectAux_ok_inv S [] v rem h'
      simp at hv
      rw [IterBuffer.len, ← h, hv]
    | error e =>
      rw [h'] at h
      simp at h
  · rw [collectSteps_iterBuffer (IterBuffer.len buf) buf le_rfl]
    rfl
  · intro b b' x hb
    cases b with
    | nil => simp [IterBuffer.next] at hb
    | cons y ys =>
      simp [IterBuffer.next] at hb
      simp [IterBuffer.len, hb]
  · intro l x
    rw [IterBuffer.nextBack]
    simp [List.getLast?_concat, List.dropLast_concat]
  · intro b b' hb
    have hb' : b' = [] := by
      cases b with
      | nil => simpa [IterBuffer.next] using hb
      | cons y ys => simp [IterBuffer.next] at hb
    subst hb'
    intro n
    refine ⟨?_, rfl⟩
    induction n with
    | zero => rfl
    | succ n ih => rw [iterPulls]; simpa [IterBuffer.next] using ih

/-- Witness for C9 at a concrete buffer built by try_buffer from two
successes. -/
theorem try_buffer_result_spec_witness :
    IterBuffer.len [1, 2]
      = (okValues ([Except.ok 1, Except.ok 2] : List (Except Nat Nat))).length
    ∧ IterBuffer.nextBack ([1] ++ [(2 : Nat)]) = (some 2, [1]) := by
  have h := try_buffer_result_spec
    ([Except.ok 1, Except.ok 2] : List (Except Nat Nat)) [1, 2] rfl
  exact ⟨h.1, h.2.2.2.1 [1] 2⟩

/-! ### The per-pull machines agree with the whole-output runs

Collecting the per-pull adapter machines over a list-held wrapped sequence
(with a stateless closure) yields the whole-output runs used above, so the
two granularities of the embedding describe the same adapters. -/

theorem takeOk_eq_collectSteps {α ε : Type} (S : List (Except ε α))
    (fuel : Nat) (h : S.length + 1 ≤ fuel) :
    collectSteps (takeOkNext listStep) fuel ⟨S, false⟩ = takeOk S := by
  induction fuel generalizing S with
  | zero => exact absurd h (Nat.not_succ_le_zero _)
  | succ n ih =>
    cases S with
    | nil =>
      rw [collectSteps]
      simp [takeOkNext, listStep, takeOk]
    | cons x rest =>
      cases x with
      | ok a =>
        rw [collectSteps]
        simp only [takeOkNext, listStep, Bool.false_eq_true, if_false]
        rw [takeOk, ih rest (by simpa using Nat.le_of_succ_le_succ h)]
      | error e =>
        rw [collectSteps]
        simp [takeOkNext, listStep, takeOk]

theorem tryMap_eq_collectSteps {α β ε : Type} (f : α → β)
    (S : List (Except ε α)) (fuel : Nat) (h : S.length + 1 ≤ fuel) :
    collectSteps (tryMapNextF listStep (fun (t : Unit) x => (f x, t))) fuel
      (S, ()) = tryMap f S := by
  induction fuel generalizing S with
  | zero => exact absurd h (Nat.not_succ_le_zero _)
  | succ n ih =>
    cases S with
    | nil =>
      rw [collectSteps]
      simp [tryMapNextF, listStep, tryMap]
    | cons x rest =>
      cases x with
      | ok a =>
        rw [collectSteps]
        simp only [tryMapNextF, listStep]
        rw [tryMap, ih rest (by simpa using Nat.le_of_succ_le_succ h)]
      | error e =>
        rw [collectSteps]
        simp only [tryMapNextF, listStep]
        rw [tryMap, ih rest (by simpa using Nat.le_of_succ_le_succ h)]

theorem tryFilter_eq_collectSteps {α ε : Type} (p : α → Bool)
    (S : List (Except ε α)) (fuel : Nat) (h : S.length + 1 ≤ fuel) :
    collectSteps (tryFilterNextF (fun (t : Unit) x => (p x, t))) fuel
      (S, ()) = tryFilter p S := by
  induction S generalizing fuel with
  | nil =>
    cases fuel with
    | zero => exact absurd h (Nat.not_succ_le_zero _)
    | succ n =>
      rw [collectSteps]
      simp [tryFilterNextF, tryFilter]
  | cons x rest ih =>
    cases fuel with
    | zero => exact absurd h (Nat.not_succ_le_zero _)
    | succ n =>
      cases x with
      | ok a =>
        cases hp : p a with
        | true =>
          rw [collectSteps]
          simp only [tryFilterNextF, hp]
          rw [tryFilter, if_pos hp, ih n (by simp at h; omega)]
        | false =>
          have hstep : tryFilterNextF (fun (t : Unit) x => (p x, t))
              (Except.ok a :: rest, ())
              = tryFilterNextF (fun (t : Unit) x => (p x, t)) (rest, ()) := by
            simp [tryFilterNextF, hp]
          have hcol : collectSteps (tryFilterNextF (fun (t : Unit) x => (p x, t)))
              (n + 1) (Except.ok a :: rest, ())
              = collectSteps (tryFilterNextF (fun (t : Unit) x => (p x, t)))
                (n + 1) (rest, ()) := by
            rw [collectSteps, collectSteps, hstep]
          rw [hcol, tryFilter, if_neg (by simp [hp]),
            ih (n + 1) (by simp at h; omega)]
      | error e =>
        rw [collectSteps]
        simp only [tryFilterNextF]
        rw [tryFilter, ih n (by simpa using Nat.le_of_succ_le_succ h)]
